import Mathlib

/-!
# Verification of the fuzzpaint-vk document state core

Shallow embedding of the point repository (`src/repositories/points.rs`),
the stroke collection command consumer (`src/state/stroke_collection.rs`),
the blend graph and its change tracker (`src/graph.rs`, `src/graph/rendering.rs`)
and the render cache orchestrator (`src/renderer.rs`), together with proofs of
the testable properties stated in the specification.

Machine `f32` values are only ever copied by the code under consideration
(no floating point arithmetic or comparison is performed on the paths the
claims concern), so they are represented by an opaque carrier type with
decidable equality; the Rust literal `0.0` is the carrier's `0`.
-/

/-- Carrier for Rust `f32` values. The verified code only copies such values,
so an opaque carrier with decidable equality is a faithful model. -/
abbrev F32 := Int

/-- `crate::StrokePoint`. Its definition lives outside the provided sources;
its channels are position, pressure and cumulative arc length (`dist`),
matching the POSITION | ARC_LENGTH | PRESSURE archetype recorded by the
repository. Only the `dist` field is ever inspected by the code under proof. -/
structure StrokePoint where
  posX : F32
  posY : F32
  pressure : F32
  dist : F32
deriving DecidableEq

/-- The all-zeroes point: slabs are allocated zeroed (`alloc_zeroed`). -/
def StrokePoint.zero : StrokePoint := ⟨0, 0, 0, 0⟩

/-- `PointArchetype::POSITION` bit. -/
def PointArchetype.POSITION : Nat := 1
/-- `PointArchetype::ARC_LENGTH` bit. -/
def PointArchetype.ARC_LENGTH : Nat := 2
/-- `PointArchetype::PRESSURE` bit. -/
def PointArchetype.PRESSURE : Nat := 4

/-- `CollectionSummary`: archetype bitset, point count, optional final arc length. -/
structure CollectionSummary where
  archetype : Nat
  len : Nat
  arcLength : Option F32
deriving DecidableEq

/-- `impl From<&[StrokePoint]> for CollectionSummary` (points.rs:81-91). -/
def summaryFromPoints (value : List StrokePoint) : CollectionSummary :=
  { archetype := PointArchetype.POSITION ||| PointArchetype.ARC_LENGTH |||
      PointArchetype.PRESSURE
  , len := value.length
  , arcLength := some ((value.getLast?.map StrokePoint.dist).getD 0) }

/-- `SLAB_SIZE` (points.rs:264). -/
def SLAB_SIZE : Nat := 1024 * 1024

/-- `PointSlab`: a fixed-capacity arena of `SLAB_SIZE` points with a bump
allocation index. The backing array (zero-initialized on creation) is
modelled as a total function from index to point. -/
structure PointSlab where
  points : Nat → StrokePoint
  bumpFreeIdx : Nat

/-- `PointSlab::new` (points.rs:311-330): zeroed storage, bump index 0. -/
def PointSlab.new : PointSlab :=
  { points := fun _ => StrokePoint.zero, bumpFreeIdx := 0 }

/-- `PointSlab::try_bump_write` (points.rs:268-290). Returns the start index
together with the updated slab (the Rust method mutates in place).
`checked_add` cannot overflow on `Nat`, so only the capacity check remains. -/
def PointSlab.tryBumpWrite (s : PointSlab) (data : List StrokePoint) :
    Option (Nat × PointSlab) :=
  if data.length ≤ SLAB_SIZE then
    let oldIdx := s.bumpFreeIdx
    let newIdx := oldIdx + data.length
    if SLAB_SIZE < newIdx then
      none
    else
      some (oldIdx,
        { points := fun i =>
            if oldIdx ≤ i ∧ i < newIdx then data.getD (i - oldIdx) StrokePoint.zero
            else s.points i
        , bumpFreeIdx := newIdx })
  else
    none

/-- `PointSlab::try_read` (points.rs:295-306). -/
def PointSlab.tryRead (s : PointSlab) (start len : Nat) :
    Option (List StrokePoint) :=
  if start + len ≤ s.bumpFreeIdx then
    some ((List.range len).map fun i => s.points (start + i))
  else
    none

/-- `PointSlab::usage` (points.rs:308-310). -/
def PointSlab.usage (s : PointSlab) : Nat := s.bumpFreeIdx

/-- `std::mem::size_of::<StrokePoint>()`: four `f32` fields, 16 bytes. -/
def STROKE_POINT_SIZE : Nat := 16

/-- `usize::MAX`. -/
def USIZE_MAX : Nat := 2 ^ 64 - 1

/-- `usize::saturating_add`. -/
def satAdd (a b : Nat) : Nat := min (a + b) USIZE_MAX

/-- `usize::saturating_mul`. -/
def satMul (a b : Nat) : Nat := min (a * b) USIZE_MAX

/-- `PointCollectionID` (a `FuzzID`): modelled as the value of a fresh-id
counter carried in the repository state. -/
abbrev PointCollectionID := Nat

/-- `PointCollectionAllocInfo` (points.rs:124-134). -/
structure PointCollectionAllocInfo where
  slabId : Nat
  start : Nat
  summary : CollectionSummary

/-- `PointRepository` (points.rs:135-138). The `allocs` hash map is modelled
as an association list whose lookup takes the first matching key (insertion
conses, matching `HashMap::insert` overwrite-on-lookup semantics); `nextId`
models the global `FuzzID` generator. -/
structure PointRepository where
  slabs : List PointSlab
  allocs : List (PointCollectionID × PointCollectionAllocInfo)
  nextId : Nat

/-- `TryRepositoryError` (repositories.rs:9-15). -/
inductive TryRepositoryError
  | notResident
  | notFound
deriving DecidableEq

/-- `PointRepository::resident_usage` (points.rs:148-160). -/
def PointRepository.residentUsage (r : PointRepository) : Nat × Nat :=
  let numSlabs := r.slabs.length
  let capacity := satMul (satMul numSlabs SLAB_SIZE) STROKE_POINT_SIZE
  let usage :=
    satMul (r.slabs.foldl (fun acc s => satAdd acc s.usage) 0) STROKE_POINT_SIZE
  (usage, capacity)

/-- The `find_map` over enumerated slabs in `PointRepository::insert`
(points.rs:167-170): first slab whose `try_bump_write` succeeds, returning
its index, the start offset, and the slab's updated state. -/
def findBumpSlab : List PointSlab → List StrokePoint →
    Option (Nat × Nat × PointSlab)
  | [], _ => none
  | s :: rest, coll =>
    match s.tryBumpWrite coll with
    | some (start, s1) => some (0, start, s1)
    | none => (findBumpSlab rest coll).map fun t => (t.1 + 1, t.2.1, t.2.2)

/-- `PointRepository::insert` (points.rs:163-210). Returns the optional fresh
id together with the updated repository (the Rust method mutates through
locks). The `unwrap` on the fresh-slab write is modelled by an unreachable
fallthrough arm returning the untouched state; `insert_fresh_slab_write`
below proves that arm is never taken under the guard. -/
def PointRepository.insert (r : PointRepository) (collection : List StrokePoint) :
    Option PointCollectionID × PointRepository :=
  if collection.length ≤ SLAB_SIZE then
    match findBumpSlab r.slabs collection with
    | some (slabId, start, newSlab) =>
      let info : PointCollectionAllocInfo :=
        ⟨slabId, start, summaryFromPoints collection⟩
      let id := r.nextId
      (some id,
        { slabs := r.slabs.set slabId newSlab
        , allocs := (id, info) :: r.allocs
        , nextId := r.nextId + 1 })
    | none =>
      match PointSlab.new.tryBumpWrite collection with
      | some (start, written) =>
        let slabId := r.slabs.length
        let info : PointCollectionAllocInfo :=
          ⟨slabId, start, summaryFromPoints collection⟩
        let id := r.nextId
        (some id,
          { slabs := r.slabs ++ [written]
          , allocs := (id, info) :: r.allocs
          , nextId := r.nextId + 1 })
      | none => (none, r)
  else
    (none, r)

/-- Lookup of a collection's allocation record. -/
def PointRepository.allocOf (r : PointRepository) (id : PointCollectionID) :
    Option PointCollectionAllocInfo :=
  (r.allocs.find? fun p => p.1 == id).map (·.2)

/-- `PointRepository::summary_of` (points.rs:223-225). -/
def PointRepository.summaryOf (r : PointRepository) (id : PointCollectionID) :
    Option CollectionSummary :=
  (r.allocOf id).map (·.summary)

/-- `PointRepository::try_get` (points.rs:226-254). The returned read lock is
modelled by the list of points it dereferences to. -/
def PointRepository.tryGet (r : PointRepository) (id : PointCollectionID) :
    Except TryRepositoryError (List StrokePoint) :=
  match r.allocOf id with
  | none => .error .notFound
  | some alloc =>
    match r.slabs[alloc.slabId]? with
    | none => .error .notFound
    | some slab =>
      match slab.tryRead alloc.start alloc.summary.len with
      | none => .error .notFound
      | some slice => .ok slice

/-! ## Stroke collection (`src/state/stroke_collection.rs`)

`StrokeBrushSettings` and the command types live in modules outside the
provided sources; their shapes are fully determined by how
`impl CommandConsumer for StrokeCollection` consumes them, and both are
only compared for equality here, so opaque carriers are faithful. -/

/-- Carrier for `crate::state::StrokeBrushSettings` (only compared by `==`). -/
abbrev StrokeBrushSettings := Nat

/-- `ImmutableStroke` (stroke_collection.rs:9-15). -/
structure ImmutableStroke where
  id : Nat
  brush : StrokeBrushSettings
  pointCollection : PointCollectionID
deriving DecidableEq

/-- `StrokeCollection` (stroke_collection.rs:17-23); the `BitVec` of activity
flags is a list of booleans. -/
structure StrokeCollection where
  id : Nat
  strokes : List ImmutableStroke
  strokesActive : List Bool
deriving DecidableEq

/-- `StrokeCommand::Created` (consumed in stroke_collection.rs:79-122). -/
inductive StrokeCommand
  | created (target : Nat) (brush : StrokeBrushSettings)
      (points : PointCollectionID)
deriving DecidableEq

/-- `StrokeCollectionCommand::Stroke`. -/
inductive StrokeCollectionCommand
  | stroke (c : StrokeCommand)
deriving DecidableEq

/-- `DoUndo` (crate::commands): `doIt` models `Do`, `undo` models `Undo`. -/
inductive DoUndo (α : Type)
  | doIt (c : α)
  | undo (c : α)
deriving DecidableEq

/-- `CommandError` variants used by the stroke collection consumer. -/
inductive CommandError
  | unknownResource
  | mismatchedState
deriving DecidableEq

/-- The enumerated linear scan inside `StrokeCollection::get_mut`
(stroke_collection.rs:61-65): first stroke whose id matches, with its index. -/
def findStroke : List ImmutableStroke → Nat → Nat → Option (Nat × ImmutableStroke)
  | [], _, _ => none
  | s :: rest, id, i => if s.id = id then some (i, s) else findStroke rest id (i + 1)

/-- `StrokeCollection::get_mut` (stroke_collection.rs:54-70): the stroke and
its activity flag, `none` when the id is unknown or the flag is missing.
The two `?` operators are modelled by the `Option` monad. -/
def StrokeCollection.getMutModel (c : StrokeCollection) (id : Nat) :
    Option (Nat × ImmutableStroke × Bool) :=
  (findStroke c.strokes id 0).bind fun p =>
    (c.strokesActive[p.1]?).map fun a => (p.1, p.2, a)

/-- Shared body of the `Do`/`Undo` arms of `apply`
(stroke_collection.rs:79-122); the two arms are verbatim copies except for
`NEW_ACTIVE`. Mutation of `&mut self` is modelled by returning the updated
collection alongside the result. -/
def applyCreated (c : StrokeCollection) (newActive : Bool) (target : Nat)
    (brush : StrokeBrushSettings) (points : PointCollectionID) :
    Except CommandError Unit × StrokeCollection :=
  match c.getMutModel target with
  | none => (.error .unknownResource, c)
  | some (idx, stroke, active) =>
    if active = newActive ∨ stroke.pointCollection ≠ points ∨
        stroke.brush ≠ brush then
      (.error .mismatchedState, c)
    else
      (.ok (), { c with strokesActive := c.strokesActive.set idx newActive })

/-- `impl CommandConsumer<StrokeCollectionCommand> for StrokeCollection`
(stroke_collection.rs:73-125). -/
def StrokeCollection.apply (c : StrokeCollection) :
    DoUndo StrokeCollectionCommand → Except CommandError Unit × StrokeCollection
  | .doIt (.stroke (.created target brush points)) =>
    applyCreated c true target brush points
  | .undo (.stroke (.created target brush points)) =>
    applyCreated c false target brush points

/-- The `Do`/`Undo` command whose commanded activity state is `newActive`. -/
def mkCreatedCommand (newActive : Bool) (target : Nat)
    (brush : StrokeBrushSettings) (points : PointCollectionID) :
    DoUndo StrokeCollectionCommand :=
  if newActive then .doIt (.stroke (.created target brush points))
  else .undo (.stroke (.created target brush points))

/-! ## Blend graph (`src/graph.rs`), change tracker (`src/graph/rendering.rs`)

The `id_tree::Tree` backing the graph is an arena of nodes with stable ids
and explicit parent/children links; it is modelled as an association list
from raw id to node record. `crate::Blend` is never inspected by the code
under proof, so it is an opaque carrier. -/

/-- Carrier for `crate::Blend` (opaque: only stored, never inspected). -/
abbrev Blend := Nat

/-- `LeafType` (graph.rs:1-13). -/
inductive LeafType
  | strokeLayer (blend : Blend) (source : Nat)
  | solidColor (blend : Blend) (source : List F32)
  | note
deriving DecidableEq

/-- `NodeType` (graph.rs:30-36). -/
inductive NodeType
  | passthrough
  | groupedBlend (blend : Blend)
deriving DecidableEq

/-- `NodeDataTy` (graph.rs:78-82). -/
inductive NodeDataTy
  | root
  | node (ty : NodeType)
  | leaf (ty : LeafType)
deriving DecidableEq

/-- `NodeData` (graph.rs:111-115). -/
structure NodeData where
  ty : NodeDataTy
  name : String
deriving DecidableEq

/-- `AnyID` (graph.rs:55-58): a raw arena id tagged as leaf or node. -/
inductive AnyID
  | leaf (raw : Nat)
  | node (raw : Nat)
deriving DecidableEq

/-- `AnyID::into_raw` (graph.rs:70-75). -/
def AnyID.intoRaw : AnyID → Nat
  | .leaf n => n
  | .node n => n

/-- One arena slot of the `id_tree::Tree`: payload, parent link and ordered
children. -/
structure TreeNode where
  data : NodeData
  parent : Option Nat
  children : List Nat
deriving DecidableEq

/-- `BlendGraph` (graph.rs:191-193): the arena plus the implicit root's id. -/
structure BlendGraph where
  rootId : Nat
  nodes : List (Nat × TreeNode)
deriving DecidableEq

/-- Arena lookup (`id_tree::Tree::get`). -/
def BlendGraph.get? (g : BlendGraph) (id : Nat) : Option TreeNode :=
  (g.nodes.find? fun p => p.1 == id).map (·.2)

/-- Parent link of a node. -/
def BlendGraph.parentOf (g : BlendGraph) (id : Nat) : Option Nat :=
  (g.get? id).bind (·.parent)

/-- The parent chain starting above `id`, cut off by a fuel bound (the walk
of `id_tree`'s `Ancestors` iterator; on a well-formed tree the chain reaches
the parentless root before the fuel `g.nodes.length` runs out). -/
def ancestorsFromFuel (g : BlendGraph) : Nat → Nat → List Nat
  | 0, _ => []
  | fuel + 1, id =>
    match g.parentOf id with
    | none => []
    | some p => p :: ancestorsFromFuel g fuel p

/-- `id_tree::Tree::ancestor_ids`: fails iff the id is not in the arena,
otherwise the chain of ancestors from the parent up to the tree root. -/
def BlendGraph.ancestorIds (g : BlendGraph) (id : Nat) : Option (List Nat) :=
  if (g.get? id).isSome then some (ancestorsFromFuel g g.nodes.length id)
  else none

/-- Well-formedness maintained by the `BlendGraph` API: exactly the implicit
root carries `NodeDataTy::Root`, and every parent link points at an existing
arena slot. -/
def BlendGraph.Wf (g : BlendGraph) : Prop :=
  (∀ p ∈ g.nodes, (p.2.data.ty = NodeDataTy.root ↔ p.1 = g.rootId)) ∧
  (∀ p ∈ g.nodes, ∀ q ∈ p.2.parent.toList, q ∈ g.nodes.map Prod.fst)

/-- `Changes` (graph/rendering.rs:6-11). -/
inductive Changes
  | blendChanged (id : AnyID)
  | leafChanged (id : Nat)
deriving DecidableEq

/-- `Changes::any_id` (graph/rendering.rs:12-19). -/
def Changes.anyId : Changes → AnyID
  | .blendChanged a => a
  | .leafChanged l => .leaf l

/-- `HashSet::insert` on the model of a hash set as a duplicate-free list. -/
def hsInsert (s : List AnyID) (x : AnyID) : List AnyID :=
  if x ∈ s then s else x :: s

/-- One iteration of the ancestor loop of `dirtied_by`
(graph/rendering.rs:36-61): insert the ancestor if it still exists, tagged
by its kind, skipping the root. -/
def ancStep (g : BlendGraph) (s : List AnyID) (a : Nat) : List AnyID :=
  match g.get? a with
  | none => s
  | some nd =>
    match nd.data.ty with
    | .leaf _ => hsInsert s (.leaf a)
    | .node _ => hsInsert s (.node a)
    | .root => s

/-- The inner loop of `dirtied_by` over the ancestor chain. -/
def insertAncestors (g : BlendGraph) (s : List AnyID) (ancs : List Nat) :
    List AnyID :=
  ancs.foldl (ancStep g) s

/-- The body of `dirtied_by`'s loop over changes (graph/rendering.rs:28-63). -/
def dirtyStep (g : BlendGraph) (s : List AnyID) (change : Changes) :
    List AnyID :=
  match g.ancestorIds change.anyId.intoRaw with
  | none => s
  | some ancs => insertAncestors g (hsInsert s change.anyId) ancs

/-- `dirtied_by` (graph/rendering.rs:23-65). -/
def dirtiedBy (g : BlendGraph) (changes : List Changes) : List AnyID :=
  changes.foldl (dirtyStep g) []

/-- The tagged id the change tracker inserts for an existing non-root arena
entry (leaf ids re-tagged `Leaf`, interior ids re-tagged `Node`). -/
def BlendGraph.tagOf (g : BlendGraph) (id : Nat) : AnyID :=
  match g.get? id with
  | some nd =>
    match nd.data.ty with
    | .leaf _ => .leaf id
    | _ => .node id
  | none => .node id

/-- The event that `insertAncestors` adds `y` for the chain member `a`. -/
def insertedTag (g : BlendGraph) (a : Nat) (y : AnyID) : Prop :=
  ∃ nd, g.get? a = some nd ∧ nd.data.ty ≠ NodeDataTy.root ∧ y = g.tagOf a

/-- `Location` (graph.rs:181-189). -/
inductive Location
  | aboveSelection (a : AnyID)
  | indexIntoNode (n : Nat) (idx : Nat)
  | indexIntoRoot (idx : Nat)
deriving DecidableEq

/-- `ReparentError` (graph.rs:171-179); `targetNotFound` is the wrapped
`TargetError::TargetNotFound`. -/
inductive ReparentError
  | targetNotFound
  | destinationNotFound
  | wouldCycle
deriving DecidableEq

/-- Insertion into a child list at an index (clamped like `Vec::insert`
bounded by the remove-then-insert sequence of a reparent). -/
def insertAt (l : List Nat) (i : Nat) (x : Nat) : List Nat :=
  l.take i ++ x :: l.drop i

/-- Modelled from the spec: resolution of a `Location` to the would-be
parent id and child index (`BlendGraph::reparent`'s destination is a
`Location`; the body in graph.rs:209-217 is `todo!()`). "Above a sibling"
resolves through that sibling's parent; "nth child of a node" requires the
id to name an interior node; "nth child of the root" targets the implicit
root. Unresolvable locations yield `none` (destination-not-found). -/
def BlendGraph.resolveLocation (g : BlendGraph) (loc : Location) :
    Option (Nat × Nat) :=
  match loc with
  | .indexIntoRoot idx => some (g.rootId, idx)
  | .indexIntoNode n idx =>
    match g.get? n with
    | some nd =>
      match nd.data.ty with
      | .node _ => some (n, idx)
      | _ => none
    | none => none
  | .aboveSelection a =>
    match g.get? a.intoRaw with
    | some nd =>
      match nd.parent with
      | some p =>
        match g.get? p with
        | some pe => some (p, pe.children.indexOf a.intoRaw)
        | none => none
      | none => none
    | none => none

/-- The structural move performed by a successful reparent: unlink the
target from every child list, point its parent link at the destination and
insert it among the destination's children. -/
def BlendGraph.moveNode (g : BlendGraph) (t destParent idx : Nat) :
    BlendGraph :=
  { rootId := g.rootId
  , nodes := g.nodes.map fun p =>
      if p.1 = t then
        (p.1, { p.2 with parent := some destParent })
      else
        (p.1,
          { p.2 with children :=
              let cs := p.2.children.filter fun c => c ≠ t
              if p.1 = destParent then insertAt cs idx t else cs }) }

/-- Modelled from the spec: `BlendGraph::reparent` (declared graph.rs:209-217
with a `todo!()` body; behaviour from §4.2 of the spec). An unknown target
fails with target-not-found; an unresolvable destination fails with
destination-not-found; if the walk of the destination's ancestor chain
(starting at the destination itself) encounters the target, it fails with
would-cycle; every failure leaves the tree unchanged. -/
def BlendGraph.reparent (g : BlendGraph) (target : AnyID) (destination : Location) :
    Except ReparentError Unit × BlendGraph :=
  match g.get? target.intoRaw with
  | none => (.error .targetNotFound, g)
  | some _ =>
    match g.resolveLocation destination with
    | none => (.error .destinationNotFound, g)
    | some (destParent, idx) =>
      if target.intoRaw = destParent ∨
          target.intoRaw ∈ ancestorsFromFuel g g.nodes.length destParent then
        (.error .wouldCycle, g)
      else
        (.ok (), g.moveNode target.intoRaw destParent idx)

/-! ## Render cache reconciliation (`src/renderer.rs:126-171`) -/

/-- Whether an arena payload is the implicit root. -/
def isRootTy : NodeDataTy → Bool
  | .root => true
  | _ => false

/-- The tagged id under which `graph.iter()` yields an arena entry (the key
type of the render-data map is `AnyID`). -/
def entryAnyId (p : Nat × TreeNode) : AnyID :=
  match p.2.data.ty with
  | .leaf _ => .leaf p.1
  | _ => .node p.1

/-- The `has_graphics` match of `Renderer::allocate_prune_graph`
(renderer.rs:136-153): stroke layers, solid colors and grouped blends
require an image; passthrough groups and notes do not. -/
def hasGraphics : NodeDataTy → Bool
  | .leaf (.strokeLayer _ _) => true
  | .leaf (.solidColor _ _) => true
  | .node (.groupedBlend _) => true
  | _ => false

/-- `graph.iter()` as consumed by `allocate_prune_graph`: every non-root
arena entry (the `(None, None)` arm for the root is `unreachable!()` there,
so the iterator never yields it). -/
def BlendGraph.iterEntries (g : BlendGraph) : List (Nat × TreeNode) :=
  g.nodes.filter fun p => !isRootTy p.2.data.ty

/-- One iteration of the allocation loop (renderer.rs:135-165): ids with
graphics are retained and get an image allocated if absent. The image
payloads are opaque to the reconciliation logic, so the map is modelled by
its key list (insertion appends, preserving first-come order). -/
def allocStep (m : List AnyID) (p : Nat × TreeNode) : List AnyID :=
  if hasGraphics p.2.data.ty then
    if entryAnyId p ∈ m then m else m ++ [entryAnyId p]
  else m

/-- `Renderer::allocate_prune_graph` (renderer.rs:126-171): allocate images
for all ids requiring graphics, then drop every entry not retained. -/
def allocatePruneGraph (m : List AnyID) (g : BlendGraph) : List AnyID :=
  (g.iterEntries.foldl allocStep m).filter fun x =>
    decide (x ∈ (g.iterEntries.filter fun p => hasGraphics p.2.data.ty).map entryAnyId)

/-- The specification's notion of "id of a kind requiring a rendered image":
a Stroke Layer leaf, a Solid Color leaf, or a Grouped Blend node. -/
def requiresImageSpec (t : NodeDataTy) : Prop :=
  (∃ b s, t = NodeDataTy.leaf (.strokeLayer b s)) ∨
  (∃ b c, t = NodeDataTy.leaf (.solidColor b c)) ∨
  (∃ b, t = NodeDataTy.node (.groupedBlend b))

/-! ## Render loop (`src/renderer.rs:37-95`)

`Renderer::render` and `render_one` are embedded with their external
collaborators — the command-queue provider, the log-subscription listener
and the image-compositing backend — abstracted as an environment of
fallible operations (their code lies outside the provided sources, and the
draw path below `allocate_prune_graph` is unimplemented `todo!()`); the
control flow around them is the code under proof. -/

/-- `crate::state::DocumentID` carrier. -/
abbrev DocumentID := Nat
/-- `DocumentCommandListener` handle carrier. -/
abbrev ListenerId := Nat
/-- Carrier for the cloned command-queue state (opaque snapshot). -/
abbrev ChangesState := Nat
/-- Carrier for `anyhow::Error` payloads of the collaborators. -/
abbrev ErrCode := Nat

/-- `IncrementalDrawErr` (renderer.rs:9-17). -/
inductive IncrementalDrawErr
  | anyhow (code : ErrCode)
  | stateMismatch
deriving DecidableEq

/-- The error cases `render_one` can produce: bailing on a document deleted
before tracking, a log-subscription failure, or a backend/draw failure
(all `anyhow::Error` in the source; distinguished here by origin). -/
inductive RenderError
  | documentDeleted
  | logSubscription (code : ErrCode)
  | backend (code : ErrCode)
deriving DecidableEq

/-- `PerDocumentData` (renderer.rs:2-8); the image payloads are opaque to
the control flow, so only the listener and the render-data keys remain. -/
structure PerDocumentData where
  listener : ListenerId
  graphRenderData : List AnyID
deriving DecidableEq

/-- The external collaborators of the render loop: subscribing to a
document's log, allocating an image, forwarding the log, and the two draw
passes (draw mutates the per-document data in place, modelled by returning
the updated record). -/
structure RenderEnv where
  listenFromNow : DocumentID → Option ListenerId
  uninitRenderData : Except ErrCode Unit
  forwardCloneState : ListenerId → Except ErrCode ChangesState
  drawFromScratch :
    PerDocumentData → ChangesState → Except ErrCode Unit × PerDocumentData
  drawIncremental :
    PerDocumentData → ChangesState →
      Except IncrementalDrawErr Unit × PerDocumentData

/-- `Renderer` (renderer.rs:18-21): the per-document tracking map. -/
structure Renderer where
  data : List (DocumentID × PerDocumentData)
deriving DecidableEq

/-- `HashMap` lookup on the association-list model. -/
def lookupDoc (d : List (DocumentID × PerDocumentData)) (id : DocumentID) :
    Option PerDocumentData :=
  (d.find? fun p => p.1 == id).map (·.2)

/-- `HashMap::remove`. -/
def eraseDoc (d : List (DocumentID × PerDocumentData)) (id : DocumentID) :
    List (DocumentID × PerDocumentData) :=
  d.filter fun p => !(p.1 == id)

/-- `HashMap` insert-or-replace. -/
def putDoc (d : List (DocumentID × PerDocumentData)) (id : DocumentID)
    (v : PerDocumentData) : List (DocumentID × PerDocumentData) :=
  (id, v) :: eraseDoc d id

/-- `Renderer::draw_from_scratch` as a tracked-state step (renderer.rs:98-113):
runs the backend draw, stores the updated per-document data, and maps a
backend failure into the per-document error. -/
def drawScratchStep (env : RenderEnv) (r : Renderer) (id : DocumentID)
    (pdd : PerDocumentData) (changes : ChangesState) :
    Except RenderError Unit × Renderer :=
  match env.drawFromScratch pdd changes with
  | (.ok _, pdd1) => (.ok (), ⟨putDoc r.data id pdd1⟩)
  | (.error e, pdd1) => (.error (.backend e), ⟨putDoc r.data id pdd1⟩)

/-- The tail of `Renderer::render_one` after the document data is at hand
(renderer.rs:69-94): forward the log subscription — on error drop exactly
this document's tracked state and propagate — then draw from scratch for a
new document, or incrementally with a from-scratch fallback on state
mismatch. -/
def renderOneWith (env : RenderEnv) (r : Renderer) (id : DocumentID)
    (pdd : PerDocumentData) (isNew : Bool) :
    Except RenderError Unit × Renderer :=
  match env.forwardCloneState pdd.listener with
  | .error e => (.error (.logSubscription e), ⟨eraseDoc r.data id⟩)
  | .ok changes =>
    if isNew then
      drawScratchStep env r id pdd changes
    else
      match env.drawIncremental pdd changes with
      | (.error .stateMismatch, pdd1) => drawScratchStep env r id pdd1 changes
      | (.error (.anyhow e), pdd1) =>
        (.error (.backend e), ⟨putDoc r.data id pdd1⟩)
      | (.ok _, pdd1) => (.ok (), ⟨putDoc r.data id pdd1⟩)

/-- `Renderer::render_one` (renderer.rs:47-95). -/
def renderOne (env : RenderEnv) (r : Renderer) (id : DocumentID) :
    Except RenderError Unit × Renderer :=
  match lookupDoc r.data id with
  | some pdd => renderOneWith env r id pdd false
  | none =>
    match env.listenFromNow id with
    | none => (.error .documentDeleted, r)
    | some l =>
      match env.uninitRenderData with
      | .error e => (.error (.backend e), r)
      | .ok _ =>
        renderOneWith env ⟨putDoc r.data id ⟨l, []⟩⟩ id ⟨l, []⟩ true

/-- `Result::err` on the per-document outcome. -/
def exceptErr : Except RenderError Unit → Option RenderError
  | .ok _ => none
  | .error e => some e

/-- The loop body of `Renderer::render` (renderer.rs:38-41):
`err = err.or(self.render_one(*change).err())` keeps the first error while
the state keeps advancing. -/
def renderStep (env : RenderEnv) (acc : Option RenderError × Renderer)
    (c : DocumentID) : Option RenderError × Renderer :=
  (acc.1.or (exceptErr (renderOne env acc.2 c).1), (renderOne env acc.2 c).2)

/-- `Renderer::render` (renderer.rs:37-46). -/
def Renderer.render (env : RenderEnv) (r : Renderer)
    (changes : List DocumentID) : Except RenderError Unit × Renderer :=
  match changes.foldl (renderStep env) (none, r) with
  | (none, r1) => (.ok (), r1)
  | (some e, r1) => (.error e, r1)

/-- The per-document outcomes of a render pass, in order, with the state
threaded through every document (specification helper). -/
def runErrors (env : RenderEnv) : Renderer → List DocumentID →
    List (Option RenderError)
  | _, [] => []
  | r, c :: cs =>
    exceptErr (renderOne env r c).1 :: runErrors env (renderOne env r c).2 cs

/-- First error in a list of per-document outcomes (specification helper). -/
def firstSome (l : List (Option RenderError)) : Option RenderError :=
  (l.filterMap id).head?

/-- A concrete environment: document log 5 is broken (subscription error 7),
every other listener forwards cleanly and draws succeed. -/
def exampleEnv : RenderEnv :=
  { listenFromNow := fun _ => some 0
  , uninitRenderData := .ok ()
  , forwardCloneState := fun l => if l = 5 then .error 7 else .ok 0
  , drawFromScratch := fun pdd _ => (.ok (), pdd)
  , drawIncremental := fun pdd _ => (.ok (), pdd) }

/-- A small concrete fixture tree `root → group(GroupedBlend) → layer`. -/
def exampleGraph : BlendGraph :=
  ⟨0, [(0, ⟨⟨.root, "root"⟩, none, [1]⟩),
       (1, ⟨⟨.node (.groupedBlend 0), "group"⟩, some 0, [2]⟩),
       (2, ⟨⟨.leaf (.strokeLayer 0 0), "layer"⟩, some 1, []⟩)]⟩

theorem range_map_getD (l : List StrokePoint) (d : StrokePoint) :
    (List.range l.length).map (fun i => l.getD i d) = l := by
  apply List.ext_getElem
  · simp
  · intro i h1 h2
    simp [List.getD_eq_getElem?_getD, List.getElem?_eq_getElem h2]

theorem tryBumpWrite_spec (s s1 : PointSlab) (data : List StrokePoint)
    (start : Nat) (h : s.tryBumpWrite data = some (start, s1)) :
    start = s.bumpFreeIdx ∧ s1.bumpFreeIdx = start + data.length ∧
      s1.tryRead start data.length = some data := by
  unfold PointSlab.tryBumpWrite at h
  by_cases hlen : data.length ≤ SLAB_SIZE
  · rw [if_pos hlen] at h
    by_cases hcap : SLAB_SIZE < s.bumpFreeIdx + data.length
    · rw [if_pos hcap] at h
      exact absurd h (by simp)
    · rw [if_neg hcap] at h
      simp only [Option.some.injEq, Prod.mk.injEq] at h
      obtain ⟨hstart, hs1⟩ := h
      subst hstart
      subst hs1
      refine ⟨rfl, rfl, ?_⟩
      unfold PointSlab.tryRead
      rw [if_pos (le_refl _)]
      congr 1
      apply List.ext_getElem
      · simp
      · intro i h1 h2
        have hi : i < data.length := h2
        simp only [List.getElem_map, List.getElem_range]
        rw [if_pos ⟨Nat.le_add_right _ _, Nat.add_lt_add_left hi _⟩,
          Nat.add_sub_cancel_left]
        simp [List.getD_eq_getElem?_getD, List.getElem?_eq_getElem hi]
  · rw [if_neg hlen] at h
    exact absurd h (by simp)

theorem findBumpSlab_spec (slabs : List PointSlab) (coll : List StrokePoint)
    (i start : Nat) (s1 : PointSlab)
    (h : findBumpSlab slabs coll = some (i, start, s1)) :
    ∃ s, slabs[i]? = some s ∧ s.tryBumpWrite coll = some (start, s1) := by
  induction slabs generalizing i with
  | nil => simp [findBumpSlab] at h
  | cons hd tl ih =>
    unfold findBumpSlab at h
    cases hw : hd.tryBumpWrite coll with
    | some t =>
      obtain ⟨st0, sl0⟩ := t
      rw [hw] at h
      simp only [Option.some.injEq, Prod.mk.injEq] at h
      obtain ⟨hi, hst, hs1⟩ := h
      subst hi
      subst hst
      subst hs1
      exact ⟨hd, by simp, hw⟩
    | none =>
      rw [hw] at h
      simp only [Option.map_eq_some'] at h
      obtain ⟨⟨i0, st0, sl0⟩, hrec, heq⟩ := h
      simp only [Prod.mk.injEq] at heq
      obtain ⟨hi, hst, hs1⟩ := heq
      subst hst
      subst hs1
      obtain ⟨s, hget, hbump⟩ := ih i0 hrec
      refine ⟨s, ?_, hbump⟩
      rw [← hi]
      simpa using hget

theorem new_slab_write (coll : List StrokePoint) (h : coll.length ≤ SLAB_SIZE) :
    ∃ w, PointSlab.new.tryBumpWrite coll = some (0, w) := by
  unfold PointSlab.tryBumpWrite PointSlab.new
  simp [h, Nat.not_lt.mpr h]

/-- The fallthrough arm of `insert` modelling the Rust `unwrap` is never
taken: a fresh slab always accepts a collection within capacity. -/
theorem insert_fresh_slab_write (coll : List StrokePoint)
    (h : coll.length ≤ SLAB_SIZE) :
    PointSlab.new.tryBumpWrite coll ≠ none := by
  obtain ⟨w, hw⟩ := new_slab_write coll h
  simp [hw]

/-- Core specification of a within-capacity `insert`: it yields the fresh id,
records the summary computed from the collection, and the written points read
back exactly. -/
theorem insert_within_spec (r : PointRepository) (P : List StrokePoint)
    (h : P.length ≤ SLAB_SIZE) :
    (r.insert P).1 = some r.nextId ∧
      (r.insert P).2.summaryOf r.nextId = some (summaryFromPoints P) ∧
      (r.insert P).2.tryGet r.nextId = .ok P := by
  unfold PointRepository.insert
  simp only [if_pos h]
  cases hf : findBumpSlab r.slabs P with
  | some t =>
    obtain ⟨slabId, start, newSlab⟩ := t
    obtain ⟨s, hget, hbump⟩ := findBumpSlab_spec r.slabs P slabId start newSlab hf
    obtain ⟨hstart, hbi, hread⟩ := tryBumpWrite_spec s newSlab P start hbump
    have hlt : slabId < r.slabs.length := by
      rcases List.getElem?_eq_some_iff.mp hget with ⟨hlt, _⟩
      exact hlt
    refine ⟨rfl, ?_, ?_⟩
    · simp [PointRepository.summaryOf, PointRepository.allocOf]
    · simp only [PointRepository.tryGet, PointRepository.allocOf,
        List.find?_cons_of_pos, beq_self_eq_true, Option.map_some']
      rw [List.getElem?_set_self hlt]
      simp [summaryFromPoints, hread]
  | none =>
    cases hw : PointSlab.new.tryBumpWrite P with
    | some t =>
      obtain ⟨start, written⟩ := t
      obtain ⟨hstart, hbi, hread⟩ :=
        tryBumpWrite_spec PointSlab.new written P start hw
      refine ⟨rfl, ?_, ?_⟩
      · simp [PointRepository.summaryOf, PointRepository.allocOf]
      · simp only [PointRepository.tryGet, PointRepository.allocOf,
          List.find?_cons_of_pos, beq_self_eq_true, Option.map_some']
        rw [List.getElem?_concat_length]
        simp [summaryFromPoints, hread]
    | none => exact absurd hw (insert_fresh_slab_write P h)

/-- C1: for every point collection within the slab capacity, `insert`
succeeds with a handle id, and `summary_of` on that id reports the
collection's length. -/
theorem c1_insert_within_capacity (r : PointRepository) (P : List StrokePoint)
    (h : P.length ≤ SLAB_SIZE) :
    ∃ id, (r.insert P).1 = some id ∧
      ((r.insert P).2.summaryOf id).map CollectionSummary.len = some P.length := by
  obtain ⟨h1, h2, _⟩ := insert_within_spec r P h
  exact ⟨r.nextId, h1, by rw [h2]; simp [summaryFromPoints]⟩

theorem c1_witness :
    ∃ id, ((PointRepository.mk [] [] 0).insert [StrokePoint.zero]).1 = some id ∧
      (((PointRepository.mk [] [] 0).insert [StrokePoint.zero]).2.summaryOf
          id).map CollectionSummary.len = some [StrokePoint.zero].length :=
  c1_insert_within_capacity (PointRepository.mk [] [] 0) [StrokePoint.zero]
    (by decide)

/-- C2: round-trip — `try_get` on the handle returned by a within-capacity
`insert` succeeds and yields exactly the inserted sequence. -/
theorem c2_insert_try_get_round_trip (r : PointRepository)
    (P : List StrokePoint) (h : P.length ≤ SLAB_SIZE) :
    ∃ id, (r.insert P).1 = some id ∧ (r.insert P).2.tryGet id = .ok P := by
  obtain ⟨h1, _, h3⟩ := insert_within_spec r P h
  exact ⟨r.nextId, h1, h3⟩

theorem c2_witness :
    ∃ id, ((PointRepository.mk [] [] 0).insert
        [⟨1, 2, 3, 4⟩, ⟨5, 6, 7, 8⟩]).1 = some id ∧
      ((PointRepository.mk [] [] 0).insert
        [⟨1, 2, 3, 4⟩, ⟨5, 6, 7, 8⟩]).2.tryGet id =
          .ok [⟨1, 2, 3, 4⟩, ⟨5, 6, 7, 8⟩] :=
  c2_insert_try_get_round_trip (PointRepository.mk [] [] 0)
    [⟨1, 2, 3, 4⟩, ⟨5, 6, 7, 8⟩] (by decide)

/-- C3: an over-capacity collection is rejected (`None`), the repository
state is untouched, and in particular `resident_usage` is unchanged. -/
theorem c3_insert_too_large (r : PointRepository) (P : List StrokePoint)
    (h : SLAB_SIZE < P.length) :
    (r.insert P).1 = none ∧ (r.insert P).2 = r ∧
      (r.insert P).2.residentUsage = r.residentUsage := by
  have hcond : ¬ P.length ≤ SLAB_SIZE := Nat.not_le.mpr h
  unfold PointRepository.insert
  simp [hcond]

theorem c3_witness :
    ((PointRepository.mk [] [] 0).insert
        (List.replicate (SLAB_SIZE + 1) StrokePoint.zero)).1 = none ∧
      ((PointRepository.mk [] [] 0).insert
        (List.replicate (SLAB_SIZE + 1) StrokePoint.zero)).2 =
          PointRepository.mk [] [] 0 ∧
      ((PointRepository.mk [] [] 0).insert
        (List.replicate (SLAB_SIZE + 1) StrokePoint.zero)).2.residentUsage =
          (PointRepository.mk [] [] 0).residentUsage :=
  c3_insert_too_large (PointRepository.mk [] [] 0)
    (List.replicate (SLAB_SIZE + 1) StrokePoint.zero)
    (by simp)

/-- C9: `try_get` only ever answers with a read view or `NotFound`; the
`NotResident` variant is unreachable under the current policy. -/
theorem c9_try_get_never_not_resident (r : PointRepository)
    (id : PointCollectionID) :
    r.tryGet id ≠ .error TryRepositoryError.notResident := by
  unfold PointRepository.tryGet
  cases h1 : r.allocOf id with
  | none => simp
  | some alloc =>
    cases h2 : r.slabs[alloc.slabId]? with
    | none => simp [h2]
    | some slab =>
      cases h3 : slab.tryRead alloc.start alloc.summary.len with
      | none => simp [h2, h3]
      | some slice => simp [h2, h3]

/-- C10: the summary recorded by any accepted `insert` (including the empty
collection) always has archetype POSITION | ARC_LENGTH | PRESSURE, and its
arc length is always `some` of the last point's `dist` (`some 0` when the
collection is empty) — never `none`. -/
theorem c10_summary_archetype_arc_length (r : PointRepository)
    (P : List StrokePoint) (h : P.length ≤ SLAB_SIZE) :
    ∃ id s, (r.insert P).1 = some id ∧
      (r.insert P).2.summaryOf id = some s ∧
      s.archetype = PointArchetype.POSITION ||| PointArchetype.ARC_LENGTH |||
        PointArchetype.PRESSURE ∧
      s.arcLength = some ((P.getLast?.map StrokePoint.dist).getD 0) ∧
      s.arcLength ≠ none := by
  obtain ⟨h1, h2, _⟩ := insert_within_spec r P h
  exact ⟨r.nextId, summaryFromPoints P, h1, h2, rfl, rfl, by simp [summaryFromPoints]⟩

theorem c10_witness :
    ∃ id s, ((PointRepository.mk [] [] 0).insert []).1 = some id ∧
      ((PointRepository.mk [] [] 0).insert []).2.summaryOf id = some s ∧
      s.archetype = PointArchetype.POSITION ||| PointArchetype.ARC_LENGTH |||
        PointArchetype.PRESSURE ∧
      s.arcLength = some ((([] : List StrokePoint).getLast?.map
        StrokePoint.dist).getD 0) ∧
      s.arcLength ≠ none :=
  c10_summary_archetype_arc_length (PointRepository.mk [] [] 0) [] (by decide)

theorem apply_mkCreatedCommand (c : StrokeCollection) (b : Bool) (target : Nat)
    (brush : StrokeBrushSettings) (points : PointCollectionID) :
    c.apply (mkCreatedCommand b target brush points) =
      applyCreated c b target brush points := by
  cases b <;> simp [mkCreatedCommand, StrokeCollection.apply]

theorem getMutModel_spec (c : StrokeCollection) (target idx : Nat)
    (stroke : ImmutableStroke) (active : Bool)
    (h : c.getMutModel target = some (idx, stroke, active)) :
    findStroke c.strokes target 0 = some (idx, stroke) ∧
      c.strokesActive[idx]? = some active := by
  unfold StrokeCollection.getMutModel at h
  rw [Option.bind_eq_some] at h
  obtain ⟨⟨i, s⟩, hf, hmap⟩ := h
  rw [Option.map_eq_some'] at hmap
  obtain ⟨a, ha, heq⟩ := hmap
  simp only [Prod.mk.injEq] at heq
  obtain ⟨h1, h2, h3⟩ := heq
  subst h1
  subst h2
  subst h3
  exact ⟨hf, ha⟩

/-- C6: a command application whose target already carries the commanded
activity state, or whose payload disagrees with the stored stroke, fails
with mismatched-state and leaves the collection unchanged; in particular
applying `Do(Created)` twice without an intervening `Undo` fails the second
time with mismatched-state and preserves the state set by the first. -/
theorem c6_mismatched_state_rejected :
    (∀ (c c1 : StrokeCollection) (target : Nat) (brush : StrokeBrushSettings)
        (points : PointCollectionID),
      c.apply (.doIt (.stroke (.created target brush points))) = (.ok (), c1) →
      c1.apply (.doIt (.stroke (.created target brush points))) =
        (.error .mismatchedState, c1)) ∧
    (∀ (c : StrokeCollection) (newActive : Bool) (target : Nat)
        (brush : StrokeBrushSettings) (points : PointCollectionID)
        (idx : Nat) (stroke : ImmutableStroke) (active : Bool),
      c.getMutModel target = some (idx, stroke, active) →
      (active = newActive ∨ stroke.pointCollection ≠ points ∨
        stroke.brush ≠ brush) →
      c.apply (mkCreatedCommand newActive target brush points) =
        (.error .mismatchedState, c)) := by
  constructor
  · intro c c1 target brush points h
    have h' : applyCreated c true target brush points = (.ok (), c1) := h
    unfold applyCreated at h'
    split at h'
    · simp at h'
    · rename_i idx stroke active hm
      by_cases hcond : active = true ∨ stroke.pointCollection ≠ points ∨
          stroke.brush ≠ brush
      · rw [if_pos hcond] at h'
        simp at h'
      · rw [if_neg hcond] at h'
        simp only [Prod.mk.injEq] at h'
        obtain ⟨-, hc1⟩ := h'
        obtain ⟨hf, ha⟩ := getMutModel_spec c target idx stroke active hm
        have hlt : idx < c.strokesActive.length :=
          (List.getElem?_eq_some_iff.mp ha).1
        have hm1 : c1.getMutModel target = some (idx, stroke, true) := by
          rw [← hc1]
          unfold StrokeCollection.getMutModel
          simp only
          rw [hf]
          simp [List.getElem?_set_self (by simpa using hlt)]
        show applyCreated c1 true target brush points =
          (.error .mismatchedState, c1)
        unfold applyCreated
        rw [hm1]
        simp
  · intro c newActive target brush points idx stroke active hm hmis
    rw [apply_mkCreatedCommand]
    unfold applyCreated
    rw [hm]
    simp [if_pos hmis]

theorem c6_witness :
    (StrokeCollection.mk 0 [ImmutableStroke.mk 1 9 7] [true]).apply
        (.doIt (.stroke (.created 1 9 7))) =
      (.error .mismatchedState,
        StrokeCollection.mk 0 [ImmutableStroke.mk 1 9 7] [true]) :=
  c6_mismatched_state_rejected.1
    (StrokeCollection.mk 0 [ImmutableStroke.mk 1 9 7] [false])
    (StrokeCollection.mk 0 [ImmutableStroke.mk 1 9 7] [true]) 1 9 7 (by rfl)

theorem mem_hsInsert (s : List AnyID) (x y : AnyID) :
    y ∈ hsInsert s x ↔ y = x ∨ y ∈ s := by
  unfold hsInsert
  split
  · rename_i hx
    constructor
    · exact fun h => Or.inr h
    · intro h
      cases h with
      | inl h => rw [h]; exact hx
      | inr h => exact h
  · simp [List.mem_cons]

theorem nodup_hsInsert (s : List AnyID) (x : AnyID) (h : s.Nodup) :
    (hsInsert s x).Nodup := by
  unfold hsInsert
  split
  · exact h
  · rename_i hx
    exact List.nodup_cons.mpr ⟨hx, h⟩

theorem get?_mem (g : BlendGraph) (id : Nat) (nd : TreeNode)
    (h : g.get? id = some nd) : (id, nd) ∈ g.nodes := by
  unfold BlendGraph.get? at h
  rw [Option.map_eq_some'] at h
  obtain ⟨p, hfind, hp2⟩ := h
  have hmem := List.mem_of_find?_eq_some hfind
  have hpred := List.find?_some hfind
  obtain ⟨a, b⟩ := p
  have h1 : a = id := by simpa using hpred
  have h2 : b = nd := hp2
  subst h1
  subst h2
  exact hmem

theorem mem_keys_isSome (g : BlendGraph) (id : Nat)
    (h : id ∈ g.nodes.map Prod.fst) : ∃ nd, g.get? id = some nd := by
  unfold BlendGraph.get?
  rw [List.mem_map] at h
  obtain ⟨p, hp, hfst⟩ := h
  have hsome : (g.nodes.find? fun q => q.1 == id).isSome := by
    rw [List.find?_isSome]
    exact ⟨p, hp, by simpa using hfst⟩
  obtain ⟨q, hq⟩ := Option.isSome_iff_exists.mp hsome
  exact ⟨q.2, by rw [hq]; rfl⟩

theorem chain_mem_get? (g : BlendGraph) (hwf : g.Wf) (fuel id a : Nat)
    (h : a ∈ ancestorsFromFuel g fuel id) : ∃ nd, g.get? a = some nd := by
  induction fuel generalizing id with
  | zero => simp [ancestorsFromFuel] at h
  | succ n ih =>
    unfold ancestorsFromFuel at h
    cases hp : g.parentOf id with
    | none => rw [hp] at h; simp at h
    | some p =>
      rw [hp] at h
      rw [List.mem_cons] at h
      cases h with
      | inl heq =>
        subst heq
        unfold BlendGraph.parentOf at hp
        rw [Option.bind_eq_some] at hp
        obtain ⟨nd, hget, hpar⟩ := hp
        have hmem := get?_mem g id nd hget
        exact mem_keys_isSome g a (hwf.2 (id, nd) hmem a (by simp [hpar]))
      | inr hr => exact ih p hr

theorem intoRaw_tagOf (g : BlendGraph) (a : Nat) : (g.tagOf a).intoRaw = a := by
  unfold BlendGraph.tagOf
  split
  · split <;> rfl
  · rfl

theorem mem_ancStep (g : BlendGraph) (s : List AnyID) (a : Nat) (y : AnyID) :
    y ∈ ancStep g s a ↔ y ∈ s ∨ insertedTag g a y := by
  unfold ancStep
  split
  · rename_i hg
    simp [insertedTag, hg]
  · rename_i nd hg
    split
    · rename_i lt hty
      rw [mem_hsInsert]
      constructor
      · rintro (h | h)
        · exact Or.inr ⟨nd, hg, by simp [hty], by simp [BlendGraph.tagOf, hg, hty, h]⟩
        · exact Or.inl h
      · rintro (h | ⟨nd2, hnd2, hne, hy⟩)
        · exact Or.inr h
        · left
          rw [hy]
          simp [BlendGraph.tagOf, hg, hty]
    · rename_i nt hty
      rw [mem_hsInsert]
      constructor
      · rintro (h | h)
        · exact Or.inr ⟨nd, hg, by simp [hty], by simp [BlendGraph.tagOf, hg, hty, h]⟩
        · exact Or.inl h
      · rintro (h | ⟨nd2, hnd2, hne, hy⟩)
        · exact Or.inr h
        · left
          rw [hy]
          simp [BlendGraph.tagOf, hg, hty]
    · rename_i hty
      constructor
      · exact Or.inl
      · rintro (h | ⟨nd2, hnd2, hne, hy⟩)
        · exact h
        · rw [hg] at hnd2
          cases Option.some.inj hnd2
          exact absurd hty hne

theorem nodup_ancStep (g : BlendGraph) (s : List AnyID) (a : Nat)
    (h : s.Nodup) : (ancStep g s a).Nodup := by
  unfold ancStep
  split
  · exact h
  · split
    · exact nodup_hsInsert _ _ h
    · exact nodup_hsInsert _ _ h
    · exact h

theorem mem_insertAncestors (g : BlendGraph) (ancs : List Nat)
    (s : List AnyID) (y : AnyID) :
    y ∈ insertAncestors g s ancs ↔ y ∈ s ∨ ∃ a ∈ ancs, insertedTag g a y := by
  induction ancs generalizing s with
  | nil => simp [insertAncestors]
  | cons a rest ih =>
    have hstep : insertAncestors g s (a :: rest) =
        insertAncestors g (ancStep g s a) rest := rfl
    rw [hstep, ih, mem_ancStep]
    constructor
    · rintro ((h | h) | ⟨b, hb, ht⟩)
      · exact Or.inl h
      · exact Or.inr ⟨a, by simp, h⟩
      · exact Or.inr ⟨b, by simp [hb], ht⟩
    · rintro (h | ⟨b, hb, ht⟩)
      · exact Or.inl (Or.inl h)
      · rw [List.mem_cons] at hb
        cases hb with
        | inl hba => subst hba; exact Or.inl (Or.inr ht)
        | inr hbr => exact Or.inr ⟨b, hbr, ht⟩

theorem nodup_insertAncestors (g : BlendGraph) (ancs : List Nat)
    (s : List AnyID) (h : s.Nodup) : (insertAncestors g s ancs).Nodup := by
  induction ancs generalizing s with
  | nil => exact h
  | cons a rest ih => exact ih (ancStep g s a) (nodup_ancStep g s a h)

theorem mem_dirtyStep (g : BlendGraph) (s : List AnyID) (ch : Changes)
    (y : AnyID) :
    y ∈ dirtyStep g s ch ↔ y ∈ s ∨ ∃ ancs,
      g.ancestorIds ch.anyId.intoRaw = some ancs ∧
      (y = ch.anyId ∨ ∃ a ∈ ancs, insertedTag g a y) := by
  unfold dirtyStep
  cases hA : g.ancestorIds ch.anyId.intoRaw with
  | none => simp
  | some ancs =>
    rw [mem_insertAncestors, mem_hsInsert]
    simp only [Option.some.injEq]
    constructor
    · rintro ((h | h) | ⟨a, ha, ht⟩)
      · exact Or.inr ⟨ancs, rfl, Or.inl h⟩
      · exact Or.inl h
      · exact Or.inr ⟨ancs, rfl, Or.inr ⟨a, ha, ht⟩⟩
    · rintro (h | ⟨ancs2, heq, h⟩)
      · exact Or.inl (Or.inr h)
      · subst heq
        cases h with
        | inl h => exact Or.inl (Or.inl h)
        | inr h => exact Or.inr h

theorem nodup_dirtyStep (g : BlendGraph) (s : List AnyID) (ch : Changes)
    (h : s.Nodup) : (dirtyStep g s ch).Nodup := by
  unfold dirtyStep
  split
  · exact h
  · exact nodup_insertAncestors g _ _ (nodup_hsInsert s _ h)

theorem mem_foldl_dirtyStep (g : BlendGraph) (changes : List Changes)
    (s : List AnyID) (y : AnyID) :
    y ∈ changes.foldl (dirtyStep g) s ↔ y ∈ s ∨ ∃ ch ∈ changes, ∃ ancs,
      g.ancestorIds ch.anyId.intoRaw = some ancs ∧
      (y = ch.anyId ∨ ∃ a ∈ ancs, insertedTag g a y) := by
  induction changes generalizing s with
  | nil => simp
  | cons ch rest ih =>
    rw [List.foldl_cons, ih, mem_dirtyStep]
    constructor
    · rintro ((h | ⟨ancs, hancs, h⟩) | ⟨ch2, hch2, hrest⟩)
      · exact Or.inl h
      · exact Or.inr ⟨ch, by simp, ancs, hancs, h⟩
      · exact Or.inr ⟨ch2, by simp [hch2], hrest⟩
    · rintro (h | ⟨ch2, hch2, hrest⟩)
      · exact Or.inl (Or.inl h)
      · rw [List.mem_cons] at hch2
        cases hch2 with
        | inl he => subst he; exact Or.inl (Or.inr hrest)
        | inr hr => exact Or.inr ⟨ch2, hr, hrest⟩

theorem nodup_foldl_dirtyStep (g : BlendGraph) (changes : List Changes)
    (s : List AnyID) (h : s.Nodup) : (changes.foldl (dirtyStep g) s).Nodup := by
  induction changes generalizing s with
  | nil => exact h
  | cons ch rest ih => exact ih (dirtyStep g s ch) (nodup_dirtyStep g s ch h)

theorem ancestorIds_eq_chain (g : BlendGraph) (raw : Nat) (ancs : List Nat)
    (h : g.ancestorIds raw = some ancs) :
    ancs = ancestorsFromFuel g g.nodes.length raw := by
  unfold BlendGraph.ancestorIds at h
  by_cases hs : (g.get? raw).isSome
  · rw [if_pos hs] at h
    exact (Option.some.inj h).symm
  · rw [if_neg hs] at h
    simp at h

/-- C4: `dirtied_by` contains, for each change whose id still exists, that
id and every non-root member of its ancestor chain (with its kind tag);
every member of the result arises from such a change (unknown ids
contribute nothing); the root id never appears; and the result is
duplicate-free. -/
theorem c4_dirtied_by_characterization (g : BlendGraph) (changes : List Changes)
    (hwf : g.Wf) (hch : ∀ ch ∈ changes, ch.anyId.intoRaw ≠ g.rootId) :
    (∀ ch ∈ changes, ∀ ancs, g.ancestorIds ch.anyId.intoRaw = some ancs →
      ch.anyId ∈ dirtiedBy g changes ∧
      ∀ a ∈ ancs, a ≠ g.rootId → g.tagOf a ∈ dirtiedBy g changes) ∧
    (∀ y ∈ dirtiedBy g changes, ∃ ch ∈ changes, ∃ ancs,
      g.ancestorIds ch.anyId.intoRaw = some ancs ∧
      (y = ch.anyId ∨ y.intoRaw ∈ ancs)) ∧
    (∀ y ∈ dirtiedBy g changes, y.intoRaw ≠ g.rootId) ∧
    (dirtiedBy g changes).Nodup := by
  refine ⟨?_, ?_, ?_, ?_⟩
  · intro ch hchm ancs hancs
    constructor
    · rw [dirtiedBy, mem_foldl_dirtyStep]
      exact Or.inr ⟨ch, hchm, ancs, hancs, Or.inl rfl⟩
    · intro a ha hroot
      rw [dirtiedBy, mem_foldl_dirtyStep]
      refine Or.inr ⟨ch, hchm, ancs, hancs, Or.inr ⟨a, ha, ?_⟩⟩
      have hchain := ancestorIds_eq_chain g ch.anyId.intoRaw ancs hancs
      rw [hchain] at ha
      obtain ⟨nd, hget⟩ := chain_mem_get? g hwf g.nodes.length
        ch.anyId.intoRaw a ha
      have hne : nd.data.ty ≠ NodeDataTy.root := by
        intro hcontra
        exact hroot ((hwf.1 (a, nd) (get?_mem g a nd hget)).mp hcontra)
      exact ⟨nd, hget, hne, rfl⟩
  · intro y hy
    rw [dirtiedBy, mem_foldl_dirtyStep] at hy
    rcases hy with h | ⟨ch, hchm, ancs, hancs, h⟩
    · simp at h
    · refine ⟨ch, hchm, ancs, hancs, ?_⟩
      cases h with
      | inl h => exact Or.inl h
      | inr h =>
        obtain ⟨a, ha, nd, hget, hne, hy2⟩ := h
        right
        rw [hy2, intoRaw_tagOf]
        exact ha
  · intro y hy
    rw [dirtiedBy, mem_foldl_dirtyStep] at hy
    rcases hy with h | ⟨ch, hchm, ancs, hancs, h⟩
    · simp at h
    · cases h with
      | inl h => rw [h]; exact hch ch hchm
      | inr h =>
        obtain ⟨a, ha, nd, hget, hne, hy2⟩ := h
        rw [hy2, intoRaw_tagOf]
        intro hcontra
        exact hne ((hwf.1 (a, nd) (get?_mem g a nd hget)).mpr hcontra)
  · exact nodup_foldl_dirtyStep g changes [] List.nodup_nil

theorem c4_witness :
    (∀ ch ∈ [Changes.leafChanged 2], ∀ ancs,
      exampleGraph.ancestorIds ch.anyId.intoRaw = some ancs →
      ch.anyId ∈ dirtiedBy exampleGraph [Changes.leafChanged 2] ∧
      ∀ a ∈ ancs, a ≠ exampleGraph.rootId →
        exampleGraph.tagOf a ∈ dirtiedBy exampleGraph [Changes.leafChanged 2]) ∧
    (∀ y ∈ dirtiedBy exampleGraph [Changes.leafChanged 2],
      ∃ ch ∈ [Changes.leafChanged 2], ∃ ancs,
      exampleGraph.ancestorIds ch.anyId.intoRaw = some ancs ∧
      (y = ch.anyId ∨ y.intoRaw ∈ ancs)) ∧
    (∀ y ∈ dirtiedBy exampleGraph [Changes.leafChanged 2],
      y.intoRaw ≠ exampleGraph.rootId) ∧
    (dirtiedBy exampleGraph [Changes.leafChanged 2]).Nodup :=
  c4_dirtied_by_characterization exampleGraph [Changes.leafChanged 2]
    (by unfold BlendGraph.Wf; decide) (by decide)

/-- C5: `reparent` fails with the distinct not-found errors for unknown
target and unresolvable destination, and with would-cycle when the target
lies on the destination's ancestor chain (the destination being the target
itself or one of its descendants); every failure leaves the tree — all ids,
parent links and child orders — unchanged. -/
theorem c5_reparent_failures (g : BlendGraph) (target : AnyID) (dest : Location) :
    (g.get? target.intoRaw = none →
      g.reparent target dest = (.error .targetNotFound, g)) ∧
    (∀ nd, g.get? target.intoRaw = some nd → g.resolveLocation dest = none →
      g.reparent target dest = (.error .destinationNotFound, g)) ∧
    (∀ nd destParent idx, g.get? target.intoRaw = some nd →
      g.resolveLocation dest = some (destParent, idx) →
      (target.intoRaw = destParent ∨
        target.intoRaw ∈ ancestorsFromFuel g g.nodes.length destParent) →
      g.reparent target dest = (.error .wouldCycle, g)) := by
  refine ⟨?_, ?_, ?_⟩
  · intro h
    simp [BlendGraph.reparent, h]
  · intro nd h1 h2
    simp [BlendGraph.reparent, h1, h2]
  · intro nd destParent idx h1 h2 hcyc
    simp [BlendGraph.reparent, h1, h2, hcyc]

theorem c5_witness :
    exampleGraph.reparent (AnyID.node 9) (Location.indexIntoRoot 0) =
      (.error .targetNotFound, exampleGraph) ∧
    exampleGraph.reparent (AnyID.node 1) (Location.indexIntoNode 2 0) =
      (.error .destinationNotFound, exampleGraph) ∧
    exampleGraph.reparent (AnyID.node 1)
        (Location.aboveSelection (AnyID.leaf 2)) =
      (.error .wouldCycle, exampleGraph) :=
  ⟨(c5_reparent_failures exampleGraph (AnyID.node 9)
      (Location.indexIntoRoot 0)).1 (by decide),
   (c5_reparent_failures exampleGraph (AnyID.node 1)
      (Location.indexIntoNode 2 0)).2.1
      ⟨⟨.node (.groupedBlend 0), "group"⟩, some 0, [2]⟩ (by decide) (by decide),
   (c5_reparent_failures exampleGraph (AnyID.node 1)
      (Location.aboveSelection (AnyID.leaf 2))).2.2
      ⟨⟨.node (.groupedBlend 0), "group"⟩, some 0, [2]⟩ 1 0
      (by decide) (by decide) (Or.inl rfl)⟩

theorem hasGraphics_iff (t : NodeDataTy) :
    hasGraphics t = true ↔ requiresImageSpec t := by
  cases t with
  | root => simp [hasGraphics, requiresImageSpec]
  | node nt => cases nt <;> simp [hasGraphics, requiresImageSpec]
  | leaf lt => cases lt <;> simp [hasGraphics, requiresImageSpec]

theorem mem_allocStep (m : List AnyID) (p : Nat × TreeNode) (y : AnyID) :
    y ∈ allocStep m p ↔ y ∈ m ∨
      (hasGraphics p.2.data.ty = true ∧ y = entryAnyId p) := by
  unfold allocStep
  split
  · rename_i hg
    split
    · rename_i hmem
      constructor
      · exact fun h => Or.inl h
      · rintro (h | ⟨-, h⟩)
        · exact h
        · rw [h]; exact hmem
    · rw [List.mem_append]
      simp [hg]
  · rename_i hg
    simp [hg]

theorem mem_allocFold (entries : List (Nat × TreeNode)) (m : List AnyID)
    (y : AnyID) :
    y ∈ entries.foldl allocStep m ↔ y ∈ m ∨
      ∃ p ∈ entries, hasGraphics p.2.data.ty = true ∧ y = entryAnyId p := by
  induction entries generalizing m with
  | nil => simp
  | cons p rest ih =>
    rw [List.foldl_cons, ih, mem_allocStep]
    constructor
    · rintro ((h | h) | ⟨q, hq, hrest⟩)
      · exact Or.inl h
      · exact Or.inr ⟨p, by simp, h⟩
      · exact Or.inr ⟨q, by simp [hq], hrest⟩
    · rintro (h | ⟨q, hq, hrest⟩)
      · exact Or.inl (Or.inl h)
      · rw [List.mem_cons] at hq
        cases hq with
        | inl he => subst he; exact Or.inl (Or.inr hrest)
        | inr hr => exact Or.inr ⟨q, hr, hrest⟩

/-- C7: after one reconciliation pass, the render-data map holds an entry
for an id iff that id exists in the graph and is of a kind requiring a
rendered image (Stroke Layer leaf, Solid Color leaf, or Grouped Blend
node); entries for vanished ids or kinds without an image are evicted. -/
theorem c7_allocate_prune_graph_iff (m : List AnyID) (g : BlendGraph)
    (x : AnyID) :
    x ∈ allocatePruneGraph m g ↔
      ∃ p ∈ g.nodes, entryAnyId p = x ∧ requiresImageSpec p.2.data.ty := by
  unfold allocatePruneGraph
  rw [List.mem_filter]
  simp only [decide_eq_true_eq]
  rw [mem_allocFold]
  constructor
  · rintro ⟨hA, hR⟩
    rw [List.mem_map] at hR
    obtain ⟨p, hp, hpx⟩ := hR
    rw [List.mem_filter] at hp
    obtain ⟨hpe, hpg⟩ := hp
    have hmem : p ∈ g.nodes := by
      unfold BlendGraph.iterEntries at hpe
      exact List.mem_of_mem_filter hpe
    exact ⟨p, hmem, hpx, (hasGraphics_iff _).mp hpg⟩
  · rintro ⟨p, hp, hpx, hreq⟩
    have hg : hasGraphics p.2.data.ty = true := (hasGraphics_iff _).mpr hreq
    have hentry : p ∈ g.iterEntries := by
      unfold BlendGraph.iterEntries
      rw [List.mem_filter]
      refine ⟨hp, ?_⟩
      rcases hreq with ⟨b, s, h⟩ | ⟨b, c, h⟩ | ⟨b, h⟩ <;> simp [h, isRootTy]
    refine ⟨Or.inr ⟨p, hentry, hg, hpx.symm⟩, ?_⟩
    rw [List.mem_map]
    exact ⟨p, List.mem_filter.mpr ⟨hentry, hg⟩, hpx⟩

theorem firstSome_cons (o : Option RenderError) (l : List (Option RenderError)) :
    firstSome (o :: l) = o.or (firstSome l) := by
  cases o <;> simp [firstSome, List.filterMap_cons]

theorem foldl_renderStep_snd (env : RenderEnv) (cs : List DocumentID) :
    ∀ acc : Option RenderError × Renderer,
      (cs.foldl (renderStep env) acc).2 =
        cs.foldl (fun st c => (renderOne env st c).2) acc.2 := by
  induction cs with
  | nil => intro acc; rfl
  | cons c rest ih =>
    intro acc
    rw [List.foldl_cons, List.foldl_cons, ih]
    rfl

theorem foldl_renderStep_fst (env : RenderEnv) (cs : List DocumentID) :
    ∀ (e : Option RenderError) (r : Renderer),
      (cs.foldl (renderStep env) (e, r)).1 =
        e.or (firstSome (runErrors env r cs)) := by
  induction cs with
  | nil =>
    intro e r
    simp [runErrors, firstSome, Option.or_none]
  | cons c rest ih =>
    intro e r
    rw [List.foldl_cons]
    have hstep : renderStep env (e, r) c =
        (e.or (exceptErr (renderOne env r c).1), (renderOne env r c).2) := rfl
    rw [hstep, ih, runErrors, firstSome_cons, Option.or_assoc]

theorem lookupDoc_eraseDoc_ne (d : List (DocumentID × PerDocumentData))
    (id id2 : DocumentID) (h : id2 ≠ id) :
    lookupDoc (eraseDoc d id) id2 = lookupDoc d id2 := by
  induction d with
  | nil => rfl
  | cons p rest ih =>
    unfold eraseDoc at ih ⊢
    rw [List.filter_cons]
    by_cases hp : p.1 = id
    · rw [if_neg (by simp [hp])]
      rw [ih]
      unfold lookupDoc
      rw [List.find?_cons_of_neg _ (by simp [hp]; exact fun he => h he.symm)]
    · rw [if_pos (by simp [hp])]
      unfold lookupDoc
      by_cases hq : p.1 = id2
      · rw [List.find?_cons_of_pos _ (by simp [hq]),
          List.find?_cons_of_pos _ (by simp [hq])]
      · rw [List.find?_cons_of_neg _ (by simp [hq]),
          List.find?_cons_of_neg _ (by simp [hq])]
        exact ih

/-- C8: a render pass advances through every changed document regardless of
earlier failures (the final tracked state is the fold of all per-document
steps), returns the first error encountered if any, and a log-subscription
error while rendering one document removes exactly that document's tracked
state, leaving every other document's tracked state untouched. -/
theorem c8_render_error_isolation (env : RenderEnv) :
    (∀ (r : Renderer) (cs : List DocumentID),
      (Renderer.render env r cs).2 =
        cs.foldl (fun st c => (renderOne env st c).2) r) ∧
    (∀ (r : Renderer) (cs : List DocumentID),
      (Renderer.render env r cs).1 =
        match firstSome (runErrors env r cs) with
        | none => .ok ()
        | some e => .error e) ∧
    (∀ (r : Renderer) (id : DocumentID) (pdd : PerDocumentData) (e : ErrCode),
      lookupDoc r.data id = some pdd →
      env.forwardCloneState pdd.listener = .error e →
      renderOne env r id = (.error (.logSubscription e), ⟨eraseDoc r.data id⟩) ∧
      ∀ id2, id2 ≠ id →
        lookupDoc (eraseDoc r.data id) id2 = lookupDoc r.data id2) := by
  refine ⟨?_, ?_, ?_⟩
  · intro r cs
    unfold Renderer.render
    have hsnd := foldl_renderStep_snd env cs (none, r)
    cases hf : cs.foldl (renderStep env) (none, r) with
    | mk e r1 =>
      rw [hf] at hsnd
      cases e <;> simpa using hsnd
  · intro r cs
    unfold Renderer.render
    have hfst := foldl_renderStep_fst env cs none r
    cases hf : cs.foldl (renderStep env) (none, r) with
    | mk e r1 =>
      rw [hf] at hfst
      rw [Option.none_or] at hfst
      cases e with
      | none => rw [← hfst]
      | some v => rw [← hfst]
  · intro r id pdd e hl hf
    constructor
    · unfold renderOne
      rw [hl]
      show renderOneWith env r id pdd false = _
      unfold renderOneWith
      rw [hf]
    · intro id2 hne
      exact lookupDoc_eraseDoc_ne r.data id id2 hne

theorem c8_witness :
    ((Renderer.render exampleEnv (Renderer.mk [(1, PerDocumentData.mk 5 [])])
        [1, 2]).2 =
      [1, 2].foldl (fun st c => (renderOne exampleEnv st c).2)
        (Renderer.mk [(1, PerDocumentData.mk 5 [])])) ∧
    (renderOne exampleEnv (Renderer.mk [(1, PerDocumentData.mk 5 [])]) 1 =
      (.error (.logSubscription 7),
        ⟨eraseDoc (Renderer.mk [(1, PerDocumentData.mk 5 [])]).data 1⟩) ∧
      ∀ id2, id2 ≠ 1 →
        lookupDoc (eraseDoc (Renderer.mk [(1, PerDocumentData.mk 5 [])]).data 1)
            id2 =
          lookupDoc (Renderer.mk [(1, PerDocumentData.mk 5 [])]).data id2) :=
  ⟨(c8_render_error_isolation exampleEnv).1
      (Renderer.mk [(1, PerDocumentData.mk 5 [])]) [1, 2],
   (c8_render_error_isolation exampleEnv).2.2
      (Renderer.mk [(1, PerDocumentData.mk 5 [])]) 1 (PerDocumentData.mk 5 [])
      7 (by rfl) (by rfl)⟩
